import Mathlib

/-!
Formal model of the `ccpm` plugin version-check pipeline, embedded from
`scripts/check-plugin-versions.ts` and the specification of the two scripts
it drives (`changed-plugins.ts`, `validate-plugin-version.ts`).

Strings that cross the subprocess boundary are modelled as explicit
character lists (`JStr`), so that the JavaScript operations the source
applies to them (`trim`, `split("\n")`, `filter(Boolean)`) can be given
faithful definitions.  Fallible subprocess invocations are modelled as
`Except` values supplied to the functions that consume them: the source's
`try/catch` blocks become `match` on `Except`.  Functions keep the names of
the source functions they embed (`parseArgs`, `getChangedPlugins`,
`validatePlugin`); the driver `main` is split into its two observable
projections, the per-plugin report (`mainReport`) and the process exit
code (`mainExitCode`).
-/

/-- A JavaScript string at the subprocess boundary, as an explicit list of
characters. -/
abbrev JStr := List Char

/-- JavaScript `String.prototype.trim`: whitespace stripped from both ends
(ASCII whitespace; the Unicode extras of JS `trim` play no role here). -/
def jsTrim (s : JStr) : JStr :=
  ((s.dropWhile Char.isWhitespace).reverse.dropWhile Char.isWhitespace).reverse

/-- JavaScript `String.prototype.split` on a single-character separator:
`"".split(sep) = [""]`, and separators delimit (possibly empty) fields. -/
def splitChar (sep : Char) : JStr → List JStr
  | [] => [[]]
  | c :: cs =>
    if c = sep then [] :: splitChar sep cs
    else
      match splitChar sep cs with
      | [] => [[c]]
      | h :: t => (c :: h) :: t

/-- The `Options` record built by `parseArgs` (source lines 5-8). -/
structure Options where
  staged : Bool
  branch : String
deriving DecidableEq

/-- The indexed loop of `parseArgs` (source lines 17-26): `--staged` sets
the flag; `--branch` followed by a further argument consumes that argument
as the branch ref (the `i++` of the source is the extra list destructuring);
`--branch` as the final argument is skipped because of the `i + 1 <
args.length` guard; every other argument is ignored. -/
def parseArgsLoop : List String → Options → Options
  | [], o => o
  | a :: rest, o =>
    if a = "--staged" then parseArgsLoop rest { o with staged := true }
    else if a = "--branch" then
      match rest with
      | [] => o
      | b :: rest2 => parseArgsLoop rest2 { o with branch := b }
    else parseArgsLoop rest o

/-- `parseArgs` (source lines 10-29): fold the argument vector over the
default options `{ staged := false, branch := "HEAD" }`. -/
def parseArgs (args : List String) : Options :=
  parseArgsLoop args { staged := false, branch := "HEAD" }

/-- Failures thrown by the shelled-out scripts, as caught by the
`try/catch` blocks of the source.  The constructors name the failure
classes of spec section 7; the source catches all of them alike. -/
inductive ShellError
  | repositoryQueryError
  | malformedDiff
  | nonzeroExit
deriving DecidableEq

/-- `getChangedPlugins` (source lines 31-46).  The subprocess invocation of
`changed-plugins.ts` is the `Except` argument: `.error` is a thrown
exception, `.ok s` is the captured stdout text.  On success the source
computes `result.trim().split("\n").filter(Boolean)`; on any exception the
`catch` returns `[]`. -/
def getChangedPlugins (result : Except ShellError JStr) : List JStr :=
  match result with
  | .error _ => []
  | .ok s => (splitChar '\n' (jsTrim s)).filter (fun l => !l.isEmpty)

/-- `validatePlugin` (source lines 48-70).  `diffQuery` models the
per-plugin `changed-plugins.ts` invocation, `policyCheck` models piping the
diff through `validate-plugin-version.ts`; either may throw.  On success
the source returns `result.trim() === "YES"`; the `catch` around both
subprocess calls returns `false`. -/
def validatePlugin (diffQuery : Except ShellError JStr)
    (policyCheck : JStr → Except ShellError JStr) : Bool :=
  match diffQuery with
  | .error _ => false
  | .ok diff =>
    match policyCheck diff with
    | .error _ => false
    | .ok result => jsTrim result == "YES".toList

/-- The per-plugin report printed by `main` (source lines 91-104): one line
per element of `changedPlugins`, carrying the plugin name and the verdict
`validatePlugin` returned for it (`true` prints "Version update REQUIRED",
`false` prints "No version update needed").  `needsUpdate` abstracts the
per-plugin call to `validatePlugin`. -/
def mainReport (changedPlugins : List JStr) (needsUpdate : JStr → Bool) :
    List (JStr × Bool) :=
  changedPlugins.map fun p => (p, needsUpdate p)

/-- The exit code of `main` (source lines 81-84 and 113-124): exit `0`
immediately when no plugins changed; otherwise exit `1` when
`pluginsNeedingUpdate` (the plugins whose verdict was `true`) is nonempty
and `0` when it is empty. -/
def mainExitCode (changedPlugins : List JStr) (needsUpdate : JStr → Bool) : Nat :=
  if changedPlugins.length = 0 then 0
  else
    let pluginsNeedingUpdate := changedPlugins.filter needsUpdate
    if 0 < pluginsNeedingUpdate.length then 1 else 0

/-- Arguments of the parse loop that are interpreted as flags, i.e. not
consumed as the value of a preceding non-final `--branch`.  An argument
immediately after such a `--branch` is its ref value and is skipped by the
loop's `i++`, so it is never matched against `--staged` or `--branch`. -/
def unconsumedArgs : List String → List String
  | [] => []
  | a :: rest =>
    if a = "--branch" then
      match rest with
      | [] => [a]
      | _ :: rest2 => a :: unconsumedArgs rest2
    else a :: unconsumedArgs rest

/-- The ref values consumed by the parse loop: for each flag-position
`--branch` that has a following argument, that following argument, in
scan order. -/
def branchRefValues : List String → List String
  | [] => []
  | a :: rest =>
    if a = "--branch" then
      match rest with
      | [] => []
      | b :: rest2 => b :: branchRefValues rest2
    else branchRefValues rest

/-- Does the parse loop end on a trailing flag-position `--branch` with no
following value (the state in which a further appended argument would be
consumed as a ref value rather than read as a flag)? -/
def danglingBranch : List String → Bool
  | [] => false
  | a :: rest =>
    if a = "--branch" then
      match rest with
      | [] => true
      | _ :: rest2 => danglingBranch rest2
    else danglingBranch rest

/-- Modelled from the spec: `scripts/changed-plugins.ts` is not under
`src/`.  Per spec section 3, a `PluginName` is "derived from a ChangedPath
by taking the path segment immediately following the plugins-root prefix;
undefined for paths outside the plugins root (discarded)". -/
def pluginNameOf (path : JStr) : Option JStr :=
  match splitChar '/' path with
  | root :: name :: _ => if root = "plugins".toList then some name else none
  | _ => none

/-- Modelled from the spec: `scripts/changed-plugins.ts` is not under
`src/`.  Per spec sections 3 and 4.1 its output (no plugin filter) is "the
set of distinct plugin names whose directory subtree contains at least one
changed path", "ordering irrelevant; deduplicated". -/
def changedPluginNames (paths : List JStr) : List JStr :=
  (paths.filterMap pluginNameOf).dedup

/-- Join a list of lines with the newline separator, as a script printing
one name per line produces on stdout. -/
def joinNl : List JStr → JStr
  | [] => []
  | [x] => x
  | x :: xs => x ++ '\n' :: joinNl xs

/-- Modelled from the spec: the stdout text `changed-plugins.ts` hands to
`getChangedPlugins`, namely the deduplicated changed plugin names printed
one per line. -/
def changedPluginsOutput (paths : List JStr) : JStr :=
  joinNl (changedPluginNames paths)

/-- The Resolver end to end: the spec-modelled `changed-plugins.ts` run on
the changed paths of the request, its stdout consumed by the source's
`getChangedPlugins`. -/
def resolveChangedPlugins (paths : List JStr) : List JStr :=
  getChangedPlugins (Except.ok (changedPluginsOutput paths))

/-- The binary verdict of the Version Policy Evaluator (spec section 4.3). -/
inductive VersionVerdict
  | BumpRequired
  | NoBumpRequired
deriving DecidableEq

/-- Modelled from the spec: `scripts/validate-plugin-version.ts` is not
under `src/`.  Per spec section 4.3 the evaluator "parses the unified diff
into added-line and removed-line sets (lines prefixed with `+`/`-`,
excluding file/hunk header lines)"; file header lines start with `+++` or
`---`. -/
structure ParsedDiff where
  added : List String
  removed : List String

/-- Modelled from the spec: split the diff text into lines and collect the
added and removed line bodies (prefix character stripped), excluding the
`+++`/`---` file header lines. -/
def parseDiff (diff : String) : ParsedDiff :=
  let lines := diff.splitOn "\n"
  { added :=
      (lines.filter fun l => l.startsWith "+" && !l.startsWith "+++").map
        fun l => l.drop 1
    removed :=
      (lines.filter fun l => l.startsWith "-" && !l.startsWith "---").map
        fun l => l.drop 1 }

/-- Modelled from the spec: recognise "the version-field pattern
(`"version": "<value>"` or equivalent key-value form)" in a diff line body
and return its value text (a trailing comma is tolerated, as in a JSON
manifest). -/
def versionValueOf (line : String) : Option String :=
  let t := line.trim
  let t2 := if t.endsWith "," then t.dropRight 1 else t
  if t2.startsWith "\x22version\x22:" then some ((t2.drop 10).trim) else none

/-- Modelled from the spec: a changed line counts toward axis (b) when it
is a "non-version, non-whitespace, non-comment field" line. -/
def isSemanticNonVersion (line : String) : Bool :=
  (versionValueOf line).isNone && line.trim ≠ "" &&
    !(line.trim.startsWith "//") && !(line.trim.startsWith "#")

/-- Modelled from the spec, axis (a): "did any line matching the
version-field pattern appear in both the added and removed sets with
different values?" -/
def axisA (d : ParsedDiff) : Bool :=
  (d.added.filterMap versionValueOf).any fun va =>
    (d.removed.filterMap versionValueOf).any fun vr => va != vr

/-- Modelled from the spec, axis (b): "did any non-version,
non-whitespace, non-comment field change (added or removed lines outside
the version field)?" -/
def axisB (d : ParsedDiff) : Bool :=
  d.added.any isSemanticNonVersion || d.removed.any isSemanticNonVersion

/-- Modelled from the spec: `scripts/validate-plugin-version.ts` is not
under `src/`.  Spec section 4.3 decision rule: "`BumpRequired` iff (b) is
true and (a) is false"; otherwise `NoBumpRequired`. -/
def evaluate (diff : String) : VersionVerdict :=
  let d := parseDiff diff
  if axisB d && !axisA d then VersionVerdict.BumpRequired
  else VersionVerdict.NoBumpRequired

/-! Helper lemmas: single-step unfoldings of the argument-parsing loop and
of the spec-side scans used to characterise it. -/

theorem getD_getLast?_cons (a d : String) (l : List String) :
    ((a :: l).getLast?).getD d = (l.getLast?).getD a := by
  cases l with
  | nil => rfl
  | cons x xs => rw [List.getLast?_cons_cons]; rfl

theorem parseArgsLoop_staged_cons (rest : List String) (o : Options) :
    parseArgsLoop ("--staged" :: rest) o =
      parseArgsLoop rest { o with staged := true } := by
  rw [parseArgsLoop.eq_def]
  simp

theorem parseArgsLoop_branch_nil (o : Options) :
    parseArgsLoop ["--branch"] o = o := by
  rw [parseArgsLoop.eq_def]
  simp

theorem parseArgsLoop_branch_cons (b : String) (rest2 : List String) (o : Options) :
    parseArgsLoop ("--branch" :: b :: rest2) o =
      parseArgsLoop rest2 { o with branch := b } := by
  rw [parseArgsLoop.eq_def]
  simp

theorem parseArgsLoop_other_cons {a : String} (h1 : a ≠ "--staged")
    (h2 : a ≠ "--branch") (rest : List String) (o : Options) :
    parseArgsLoop (a :: rest) o = parseArgsLoop rest o := by
  rw [parseArgsLoop.eq_def]
  simp [h1, h2]

theorem unconsumedArgs_branch_nil : unconsumedArgs ["--branch"] = ["--branch"] := by
  rw [unconsumedArgs.eq_def]
  simp

theorem unconsumedArgs_branch_cons (b : String) (rest2 : List String) :
    unconsumedArgs ("--branch" :: b :: rest2) =
      "--branch" :: unconsumedArgs rest2 := by
  rw [unconsumedArgs.eq_def]
  simp

theorem unconsumedArgs_other_cons {a : String} (h : a ≠ "--branch")
    (rest : List String) :
    unconsumedArgs (a :: rest) = a :: unconsumedArgs rest := by
  rw [unconsumedArgs.eq_def]
  simp [h]

theorem branchRefValues_branch_nil : branchRefValues ["--branch"] = [] := by
  rw [branchRefValues.eq_def]
  simp

theorem branchRefValues_branch_cons (b : String) (rest2 : List String) :
    branchRefValues ("--branch" :: b :: rest2) = b :: branchRefValues rest2 := by
  rw [branchRefValues.eq_def]
  simp

theorem branchRefValues_other_cons {a : String} (h : a ≠ "--branch")
    (rest : List String) :
    branchRefValues (a :: rest) = branchRefValues rest := by
  rw [branchRefValues.eq_def]
  simp [h]

/-- The parse loop, in closed form: the staged flag is set exactly when a
flag-position `--staged` is seen, and the branch ref is the last consumed
`--branch` value (the accumulator's value when there is none). -/
theorem parseArgsLoop_eq (args : List String) (o : Options) :
    parseArgsLoop args o =
      { staged := o.staged || (unconsumedArgs args).contains "--staged",
        branch := (branchRefValues args).getLastD o.branch } := by
  induction args, o using parseArgsLoop.induct with
  | case1 o => simp [parseArgsLoop, unconsumedArgs, branchRefValues]
  | case2 rest o ih =>
    rw [parseArgsLoop_staged_cons, ih,
      unconsumedArgs_other_cons (by decide),
      branchRefValues_other_cons (by decide)]
    simp
  | case3 o h =>
    rw [parseArgsLoop_branch_nil, unconsumedArgs_branch_nil,
      branchRefValues_branch_nil]
    simp
  | case4 o b rest2 h ih =>
    rw [parseArgsLoop_branch_cons, ih, unconsumedArgs_branch_cons,
      branchRefValues_branch_cons]
    simp [getD_getLast?_cons]
  | case5 a rest o ha hb ih =>
    rw [parseArgsLoop_other_cons ha hb, ih, unconsumedArgs_other_cons hb,
      branchRefValues_other_cons hb]
    simp [Ne.symm ha]

theorem danglingBranch_branch_nil : danglingBranch ["--branch"] = true := by
  rw [danglingBranch.eq_def]
  simp

theorem danglingBranch_branch_cons (b : String) (rest2 : List String) :
    danglingBranch ("--branch" :: b :: rest2) = danglingBranch rest2 := by
  rw [danglingBranch.eq_def]
  simp

theorem danglingBranch_other_cons {a : String} (h : a ≠ "--branch")
    (rest : List String) :
    danglingBranch (a :: rest) = danglingBranch rest := by
  rw [danglingBranch.eq_def]
  simp [h]

theorem unconsumedArgs_append_branch {args : List String}
    (h : danglingBranch args = false) :
    unconsumedArgs (args ++ ["--branch"]) =
      unconsumedArgs args ++ ["--branch"] := by
  induction args using danglingBranch.induct with
  | case1 =>
    simp [unconsumedArgs, unconsumedArgs_branch_nil]
  | case2 =>
    rw [danglingBranch_branch_nil] at h
    exact absurd h (by simp)
  | case3 b rest2 ih =>
    rw [danglingBranch_branch_cons] at h
    rw [List.cons_append, List.cons_append, unconsumedArgs_branch_cons,
      ih h, unconsumedArgs_branch_cons, List.cons_append]
  | case4 a rest ha ih =>
    rw [danglingBranch_other_cons ha] at h
    rw [List.cons_append, unconsumedArgs_other_cons ha,
      ih h, unconsumedArgs_other_cons ha, List.cons_append]

theorem branchRefValues_append_branch {args : List String}
    (h : danglingBranch args = false) :
    branchRefValues (args ++ ["--branch"]) = branchRefValues args := by
  induction args using danglingBranch.induct with
  | case1 =>
    simp [branchRefValues, branchRefValues_branch_nil]
  | case2 =>
    rw [danglingBranch_branch_nil] at h
    exact absurd h (by simp)
  | case3 b rest2 ih =>
    rw [danglingBranch_branch_cons] at h
    rw [List.cons_append, List.cons_append, branchRefValues_branch_cons,
      ih h, branchRefValues_branch_cons]
  | case4 a rest ha ih =>
    rw [danglingBranch_other_cons ha] at h
    rw [List.cons_append, branchRefValues_other_cons ha,
      ih h, branchRefValues_other_cons ha]

/-- C8 counterexample: with the argument vector `["--branch", "--staged"]`
the flag `--staged` is present, yet the parsed options have `staged =
false` — the parse loop consumes `--staged` as the ref value of the
preceding `--branch`, so "Staged mode iff `--staged` is present" fails. -/
theorem parseArgs_staged_iff_fails_on_consumed_flag :
    "--staged" ∈ ["--branch", "--staged"] ∧
      (parseArgs ["--branch", "--staged"]).staged = false := by
  constructor
  · simp
  · rfl

/-- C8 (amended): option parsing scans left to right and an argument
immediately following a non-final `--branch` is consumed as that flag's
ref value, never read as a flag.  `staged` is set iff `--staged` occurs in
flag (unconsumed) position; the branch ref is the value following the last
flag-position `--branch` that has one, and `"HEAD"` (working-tree mode)
when there is none. -/
theorem parseArgs_flag_characterization (args : List String) :
    ((parseArgs args).staged = true ↔ "--staged" ∈ unconsumedArgs args) ∧
      (parseArgs args).branch = (branchRefValues args).getLastD "HEAD" := by
  rw [parseArgs, parseArgsLoop_eq]
  simp

/-- C10: `parseArgs` is total and never reads past the end of the argument
vector: when the loop does not end expecting a ref value (`danglingBranch
args = false`), a trailing `--branch` with no following value is ignored
entirely, and the branch ref returned is the value of the last `--branch`
occurrence that has one (`"HEAD"` when none has). -/
theorem parseArgs_ignores_trailing_branch (args : List String)
    (h : danglingBranch args = false) :
    parseArgs (args ++ ["--branch"]) = parseArgs args ∧
      (parseArgs args).branch = (branchRefValues args).getLastD "HEAD" := by
  constructor
  · rw [parseArgs, parseArgs, parseArgsLoop_eq, parseArgsLoop_eq,
      unconsumedArgs_append_branch h, branchRefValues_append_branch h]
    simp
  · rw [parseArgs, parseArgsLoop_eq]

/-- C10 witness: on a concrete argument vector with two valued `--branch`
occurrences, an appended dangling `--branch` is ignored and the second
value `"dev"` is the ref that `parseArgs` keeps. -/
theorem parseArgs_ignores_trailing_branch_witness :
    danglingBranch ["--branch", "main", "--branch", "dev"] = false ∧
      (parseArgs (["--branch", "main", "--branch", "dev"] ++ ["--branch"]) =
          parseArgs ["--branch", "main", "--branch", "dev"] ∧
        (parseArgs ["--branch", "main", "--branch", "dev"]).branch =
          (branchRefValues ["--branch", "main", "--branch", "dev"]).getLastD
            "HEAD") :=
  ⟨by decide, parseArgs_ignores_trailing_branch _ (by decide)⟩

/-- C2: in the source, a thrown repository query and an empty change set
are indistinguishable to the caller — `getChangedPlugins` returns the very
same `[]` for a failed query as for empty stdout, so no
`RepositoryQueryError` ever reaches the caller. -/
theorem getChangedPlugins_conflates_failure_with_empty :
    getChangedPlugins (Except.error ShellError.repositoryQueryError) =
        getChangedPlugins (Except.ok []) ∧
      getChangedPlugins (Except.error ShellError.repositoryQueryError) = [] :=
  ⟨rfl, rfl⟩

/-- C3: in the source, a policy check that fails (for example on a
malformed diff) is caught by `validatePlugin` and mapped to the verdict
`false` ("no update needed"), and a run whose only changed plugin got that
verdict exits 0 — the failure is silently passed over, not surfaced. -/
theorem validatePlugin_swallows_malformed_diff :
    validatePlugin (Except.ok "not a unified diff".toList)
        (fun _ => Except.error ShellError.malformedDiff) = false ∧
      mainExitCode ["plugin-a".toList] (fun _ => false) = 0 :=
  ⟨rfl, rfl⟩

/-- C4: `validatePlugin` returns `false` whenever any exception is raised
by the per-plugin diff query or by the piped policy check, whatever the
error was. -/
theorem validatePlugin_false_on_exception
    (diffQuery : Except ShellError JStr)
    (policyCheck : JStr → Except ShellError JStr)
    (h : (∃ e, diffQuery = Except.error e) ∨
      (∃ d e, diffQuery = Except.ok d ∧ policyCheck d = Except.error e)) :
    validatePlugin diffQuery policyCheck = false := by
  rcases h with ⟨e, rfl⟩ | ⟨d, e, rfl, hpc⟩
  · rfl
  · simp [validatePlugin, hpc]

/-- C4 witness: a non-zero-exit exception from the diff query yields
`false`, and so does a policy-check exception after a successful query. -/
theorem validatePlugin_false_on_exception_witness :
    validatePlugin (Except.error ShellError.nonzeroExit)
        (fun _ => Except.ok "YES".toList) = false ∧
      validatePlugin (Except.ok "diff".toList)
        (fun _ => Except.error ShellError.nonzeroExit) = false :=
  ⟨validatePlugin_false_on_exception _ _
      (Or.inl ⟨ShellError.nonzeroExit, rfl⟩),
    validatePlugin_false_on_exception _ _
      (Or.inr ⟨"diff".toList, ShellError.nonzeroExit, rfl, rfl⟩)⟩

/-- C9: when both subprocesses succeed, `validatePlugin` returns `true`
exactly when the policy check's output, trimmed of surrounding whitespace,
is the string `YES`. -/
theorem validatePlugin_true_iff_trimmed_yes (diffText : JStr)
    (policyCheck : JStr → Except ShellError JStr) (out : JStr)
    (h : policyCheck diffText = Except.ok out) :
    (validatePlugin (Except.ok diffText) policyCheck = true ↔
      jsTrim out = "YES".toList) := by
  simp [validatePlugin, h]

/-- C9 witness: output `" YES \n"` trims to `YES` and yields `true`;
lowercase `"yes"` does not. -/
theorem validatePlugin_true_iff_trimmed_yes_witness :
    validatePlugin (Except.ok []) (fun _ => Except.ok " YES \n".toList) = true ∧
      validatePlugin (Except.ok []) (fun _ => Except.ok "yes".toList) ≠ true := by
  constructor
  · exact (validatePlugin_true_iff_trimmed_yes []
      (fun _ => Except.ok " YES \n".toList) (" YES \n".toList) rfl).mpr
      (by decide)
  · intro hc
    exact absurd ((validatePlugin_true_iff_trimmed_yes []
      (fun _ => Except.ok "yes".toList) ("yes".toList) rfl).mp hc)
      (by decide)

/-- C5: the run passes (exit status 0) iff no changed plugin got the
bump-required verdict; a run with zero changed plugins is a pass, and a
run with at least one bump-required plugin exits 1. -/
theorem mainExitCode_pass_iff_no_bump (changedPlugins : List JStr)
    (needsUpdate : JStr → Bool) :
    (mainExitCode changedPlugins needsUpdate = 0 ↔
      changedPlugins.filter needsUpdate = []) ∧
      (mainExitCode changedPlugins needsUpdate = 1 ↔
        changedPlugins.filter needsUpdate ≠ []) ∧
      mainExitCode [] needsUpdate = 0 := by
  refine ⟨?_, ?_, rfl⟩ <;>
    · rcases changedPlugins with _ | ⟨p, ps⟩
      · simp [mainExitCode]
      · by_cases hf : (p :: ps).filter needsUpdate = []
        · simp [mainExitCode, hf]
        · have hp : 0 < ((p :: ps).filter needsUpdate).length :=
            List.length_pos.mpr hf
          simp [mainExitCode, hf, hp]

theorem count_eq_one_of_nodup_mem {l : List JStr} {p : JStr}
    (h : l.Nodup) (hp : p ∈ l) : l.count p = 1 := by
  induction l with
  | nil => simp at hp
  | cons x xs ih =>
    rcases List.mem_cons.mp hp with rfl | hmem
    · have hx : p ∉ xs := (List.nodup_cons.mp h).1
      rw [List.count_cons_self, List.count_eq_zero.mpr hx]
    · have hne : p ≠ x := by
        rintro rfl
        exact (List.nodup_cons.mp h).1 hmem
      rw [List.count_cons_of_ne hne]
      exact ih (List.nodup_cons.mp h).2 hmem

/-- C6: the final report lists every resolved plugin exactly once (the
resolver output being duplicate-free), every entry carries the verdict
computed for that plugin, and no plugin is dropped — the error-swallowing
happens inside the verdict, never by omitting a report entry. -/
theorem mainReport_lists_every_plugin (changedPlugins : List JStr)
    (needsUpdate : JStr → Bool) (h : changedPlugins.Nodup) :
    (mainReport changedPlugins needsUpdate).map Prod.fst = changedPlugins ∧
      (∀ p ∈ changedPlugins,
        ((mainReport changedPlugins needsUpdate).map Prod.fst).count p = 1) ∧
      (∀ e ∈ mainReport changedPlugins needsUpdate, e.2 = needsUpdate e.1) := by
  have hmap : (mainReport changedPlugins needsUpdate).map Prod.fst =
      changedPlugins := by
    simp [mainReport, Function.comp_def]
  refine ⟨hmap, ?_, ?_⟩
  · intro p hp
    rw [hmap]
    exact count_eq_one_of_nodup_mem h hp
  · intro e he
    simp only [mainReport, List.mem_map] at he
    rcases he with ⟨p, _, rfl⟩
    rfl

/-- C6 witness: a concrete two-plugin report. -/
theorem mainReport_lists_every_plugin_witness :
    (mainReport ["a".toList, "b".toList] (fun _ => true)).map Prod.fst =
        ["a".toList, "b".toList] ∧
      (∀ p ∈ (["a".toList, "b".toList] : List JStr),
        ((mainReport ["a".toList, "b".toList] (fun _ => true)).map
          Prod.fst).count p = 1) ∧
      (∀ e ∈ mainReport ["a".toList, "b".toList] (fun _ => true),
        e.2 = (fun _ => true) e.1) :=
  mainReport_lists_every_plugin ["a".toList, "b".toList] (fun _ => true)
    (by decide)

/-- C1: the evaluator answers `BumpRequired` exactly when some
non-version, non-whitespace, non-comment line occurs among the added or
removed lines (axis b) while no version-field line occurs in both the
added and the removed sets with different values (axis a); in every other
situation — in particular whenever the version field did change to a
different value — it answers `NoBumpRequired`. -/
theorem evaluate_bumpRequired_iff (diff : String) :
    (evaluate diff = VersionVerdict.BumpRequired ↔
      ((∃ l ∈ (parseDiff diff).added ++ (parseDiff diff).removed,
          isSemanticNonVersion l = true) ∧
        ¬∃ va ∈ (parseDiff diff).added.filterMap versionValueOf,
            ∃ vr ∈ (parseDiff diff).removed.filterMap versionValueOf,
              va ≠ vr)) ∧
      (evaluate diff = VersionVerdict.NoBumpRequired ↔
        ¬((∃ l ∈ (parseDiff diff).added ++ (parseDiff diff).removed,
            isSemanticNonVersion l = true) ∧
          ¬∃ va ∈ (parseDiff diff).added.filterMap versionValueOf,
              ∃ vr ∈ (parseDiff diff).removed.filterMap versionValueOf,
                va ≠ vr)) := by
  have hA : (axisA (parseDiff diff) = true) ↔
      ∃ va ∈ (parseDiff diff).added.filterMap versionValueOf,
        ∃ vr ∈ (parseDiff diff).removed.filterMap versionValueOf, va ≠ vr := by
    simp only [axisA, List.any_eq_true, bne_iff_ne, ne_eq]
  have hB : (axisB (parseDiff diff) = true) ↔
      ∃ l ∈ (parseDiff diff).added ++ (parseDiff diff).removed,
        isSemanticNonVersion l = true := by
    simp only [axisB, Bool.or_eq_true, List.any_eq_true, List.mem_append]
    constructor
    · rintro (⟨l, hl, hsem⟩ | ⟨l, hl, hsem⟩)
      · exact ⟨l, Or.inl hl, hsem⟩
      · exact ⟨l, Or.inr hl, hsem⟩
    · rintro ⟨l, hl | hl, hsem⟩
      · exact Or.inl ⟨l, hl, hsem⟩
      · exact Or.inr ⟨l, hl, hsem⟩
  have heval : evaluate diff =
      (if axisB (parseDiff diff) && !axisA (parseDiff diff)
        then VersionVerdict.BumpRequired else VersionVerdict.NoBumpRequired) :=
    rfl
  have key1 : evaluate diff = VersionVerdict.BumpRequired ↔
      (axisB (parseDiff diff) = true ∧ ¬axisA (parseDiff diff) = true) := by
    rw [heval]
    cases axisB (parseDiff diff) <;> cases axisA (parseDiff diff) <;> simp
  have key2 : evaluate diff = VersionVerdict.NoBumpRequired ↔
      ¬(axisB (parseDiff diff) = true ∧ ¬axisA (parseDiff diff) = true) := by
    rw [heval]
    cases axisB (parseDiff diff) <;> cases axisA (parseDiff diff) <;> simp
  constructor
  · rw [key1, hB, hA]
  · rw [key2, hB, hA]

theorem splitChar_ne_nil (sep : Char) : ∀ s : JStr, splitChar sep s ≠ []
  | [] => by simp [splitChar]
  | c :: cs => by
    by_cases hc : c = sep
    · simp [splitChar, hc]
    · cases h : splitChar sep cs with
      | nil => simp [splitChar, hc, h]
      | cons x t => simp [splitChar, hc, h]

theorem splitChar_of_not_mem {sep : Char} :
    ∀ {s : JStr}, sep ∉ s → splitChar sep s = [s]
  | [], _ => rfl
  | c :: cs, h => by
    have hc : ¬c = sep := by
      intro e
      exact h (by simp [e])
    have ih := splitChar_of_not_mem (s := cs)
      (fun hm => h (List.mem_cons_of_mem _ hm))
    simp [splitChar, hc, ih]

theorem splitChar_append_sep {sep : Char} :
    ∀ {x : JStr}, sep ∉ x → ∀ t : JStr,
      splitChar sep (x ++ sep :: t) = x :: splitChar sep t
  | [], _, t => by simp [splitChar]
  | c :: x2, h, t => by
    have hc : ¬c = sep := by
      intro e
      exact h (by simp [e])
    have ih := splitChar_append_sep (x := x2)
      (fun hm => h (List.mem_cons_of_mem _ hm)) t
    simp [splitChar, hc, ih]

theorem splitChar_joinNl : ∀ {l : List JStr}, l ≠ [] →
    (∀ x ∈ l, '\n' ∉ x) → splitChar '\n' (joinNl l) = l
  | [], h, _ => absurd rfl h
  | [x], _, hx => by
    rw [show joinNl [x] = x from rfl]
    exact splitChar_of_not_mem (hx x (by simp))
  | x :: y :: t, _, hx => by
    have ih := splitChar_joinNl (l := y :: t) (by simp)
      (fun z hz => hx z (List.mem_cons_of_mem _ hz))
    rw [show joinNl (x :: y :: t) = x ++ '\n' :: joinNl (y :: t) from rfl,
      splitChar_append_sep (hx x (by simp)), ih]

theorem joinNl_ne_nil : ∀ {l : List JStr}, l ≠ [] → (∀ x ∈ l, x ≠ []) →
    joinNl l ≠ []
  | [], h, _ => absurd rfl h
  | [x], _, h => by simpa [joinNl] using h x (by simp)
  | x :: y :: t, _, h => by
    have hx := h x (by simp)
    cases x with
    | nil => exact absurd rfl hx
    | cons a as => simp [joinNl]

theorem head?_mem : ∀ {s : JStr} {c : Char}, s.head? = some c → c ∈ s
  | [], c, h => by simp at h
  | a :: t, c, h => by
    rw [List.head?_cons, Option.some.injEq] at h
    rw [← h]
    exact List.mem_cons_self a t

theorem joinNl_head?_mem {l : List JStr} (hne : ∀ x ∈ l, x ≠ []) {c : Char}
    (h : (joinNl l).head? = some c) : ∃ x ∈ l, c ∈ x := by
  match l with
  | [] => simp [joinNl] at h
  | [x] => exact ⟨x, by simp, head?_mem h⟩
  | x :: y :: t =>
    have hx := hne x (by simp)
    rw [show joinNl (x :: y :: t) = x ++ '\n' :: joinNl (y :: t) from rfl,
      List.head?_append_of_ne_nil _ hx] at h
    exact ⟨x, by simp, head?_mem h⟩

theorem joinNl_getLast?_mem : ∀ {l : List JStr}, (∀ x ∈ l, x ≠ []) →
    ∀ {c : Char}, (joinNl l).getLast? = some c → ∃ x ∈ l, c ∈ x
  | [], _, c, h => by simp [joinNl] at h
  | [x], _, c, h => ⟨x, by simp, List.mem_of_mem_getLast? h⟩
  | x :: y :: t, hne, c, h => by
    have hj : joinNl (y :: t) ≠ [] :=
      joinNl_ne_nil (by simp) (fun z hz => hne z (List.mem_cons_of_mem _ hz))
    rw [show joinNl (x :: y :: t) = x ++ '\n' :: joinNl (y :: t) from rfl,
      List.getLast?_append_cons] at h
    have h2 : (joinNl (y :: t)).getLast? = some c := by
      cases hj2 : joinNl (y :: t) with
      | nil => exact absurd hj2 hj
      | cons a as =>
        rw [hj2] at h
        rw [List.getLast?_cons_cons] at h
        exact h
    obtain ⟨z, hz, hcz⟩ := joinNl_getLast?_mem
      (fun z hz => hne z (List.mem_cons_of_mem _ hz)) h2
    exact ⟨z, List.mem_cons_of_mem _ hz, hcz⟩

theorem jsTrim_eq_self {s : JStr}
    (h1 : ∀ c, s.head? = some c → c.isWhitespace = false)
    (h2 : ∀ c, s.getLast? = some c → c.isWhitespace = false) :
    jsTrim s = s := by
  have hd : s.dropWhile Char.isWhitespace = s := by
    cases s with
    | nil => rfl
    | cons a t =>
      rw [List.dropWhile_cons]
      simp [h1 a rfl]
  rw [jsTrim, hd]
  have hr : s.reverse.dropWhile Char.isWhitespace = s.reverse := by
    cases hrev : s.reverse with
    | nil => rfl
    | cons a t =>
      have ha : s.getLast? = some a := by
        rw [← List.head?_reverse, hrev, List.head?_cons]
      rw [List.dropWhile_cons]
      simp [h2 a ha]
  rw [hr, List.reverse_reverse]

theorem mem_of_mem_splitChar {sep : Char} :
    ∀ {s y : JStr}, y ∈ splitChar sep s → ∀ {c : Char}, c ∈ y → c ∈ s
  | [], y, hy, c, hc => by
    simp [splitChar] at hy
    subst hy
    simp at hc
  | a :: as, y, hy, c, hc => by
    by_cases ha : a = sep
    · rw [show splitChar sep (a :: as) = [] :: splitChar sep as from by
        simp [splitChar, ha]] at hy
      rcases List.mem_cons.mp hy with rfl | hy2
      · simp at hc
      · exact List.mem_cons_of_mem _ (mem_of_mem_splitChar hy2 hc)
    · cases hsp : splitChar sep as with
      | nil => exact absurd hsp (splitChar_ne_nil sep as)
      | cons h0 t0 =>
        rw [show splitChar sep (a :: as) = (a :: h0) :: t0 from by
          simp [splitChar, ha, hsp]] at hy
        rcases List.mem_cons.mp hy with rfl | hy2
        · rcases List.mem_cons.mp hc with rfl | hc2
          · exact List.mem_cons_self _ _
          · have hmem : c ∈ as := mem_of_mem_splitChar (s := as)
              (by rw [hsp]; exact List.mem_cons_self h0 t0) hc2
            exact List.mem_cons_of_mem _ hmem
        · have hmem : c ∈ as := mem_of_mem_splitChar (s := as)
            (by rw [hsp]; exact List.mem_cons_of_mem _ hy2) hc
          exact List.mem_cons_of_mem _ hmem

/-- Round trip of the Resolver pipeline: when the plugin names are
nonempty and whitespace-free, printing them one per line and re-parsing
with `trim`/`split`/`filter` recovers exactly the list of names. -/
theorem resolveChangedPlugins_eq (paths : List JStr)
    (hws : ∀ x ∈ changedPluginNames paths, ∀ c ∈ x, c.isWhitespace = false)
    (hne : ∀ x ∈ changedPluginNames paths, x ≠ []) :
    resolveChangedPlugins paths = changedPluginNames paths := by
  by_cases hnil : changedPluginNames paths = []
  · rw [resolveChangedPlugins, changedPluginsOutput, hnil]
    rfl
  · have hnonl : ∀ x ∈ changedPluginNames paths, '\n' ∉ x := by
      intro x hx hcx
      have hfalse := hws x hx '\n' hcx
      simp at hfalse
    have htrim : jsTrim (changedPluginsOutput paths) =
        changedPluginsOutput paths := by
      apply jsTrim_eq_self
      · intro c hc
        obtain ⟨x, hx, hcx⟩ := joinNl_head?_mem hne hc
        exact hws x hx c hcx
      · intro c hc
        obtain ⟨x, hx, hcx⟩ := joinNl_getLast?_mem hne hc
        exact hws x hx c hcx
    rw [show resolveChangedPlugins paths =
      (splitChar '\n' (jsTrim (changedPluginsOutput paths))).filter
        (fun l => !l.isEmpty) from rfl]
    rw [htrim, changedPluginsOutput, splitChar_joinNl hnil hnonl]
    apply List.filter_eq_self.mpr
    intro x hx
    simpa using hne x hx

/-- C7: the changed-plugin list handed to the caller contains no
duplicates — the spec-modelled resolver deduplicates the names, and (for
whitespace-free paths yielding nonempty names) the subprocess text round
trip through `getChangedPlugins` preserves them, so the output is a set of
distinct plugin names however many changed paths fall in one plugin. -/
theorem resolveChangedPlugins_nodup (paths : List JStr)
    (hws : ∀ p ∈ paths, ∀ c ∈ p, c.isWhitespace = false)
    (hne : ∀ x ∈ changedPluginNames paths, x ≠ []) :
    (resolveChangedPlugins paths).Nodup := by
  have hws2 : ∀ x ∈ changedPluginNames paths, ∀ c ∈ x,
      c.isWhitespace = false := by
    intro x hx c hc
    rw [changedPluginNames, List.mem_dedup] at hx
    obtain ⟨p, hp, hpn⟩ := List.mem_filterMap.mp hx
    have hxseg : x ∈ splitChar '/' p := by
      rw [pluginNameOf.eq_def] at hpn
      rcases hsp : splitChar '/' p with _ | ⟨root, rest⟩
      · rw [hsp] at hpn
        simp at hpn
      · rcases rest with _ | ⟨name, rest2⟩
        · rw [hsp] at hpn
          simp at hpn
        · rw [hsp] at hpn
          by_cases hr : root = "plugins".toList
          · simp [hr] at hpn
            simp [hpn]
          · simp [hr] at hpn
            exact absurd hpn.1 (by simpa using hr)
    exact hws p hp c (mem_of_mem_splitChar hxseg hc)
  rw [resolveChangedPlugins_eq paths hws2 hne, changedPluginNames]
  exact List.nodup_dedup _

/-- C7 witness: four concrete changed paths touching plugin `alpha` twice
and plugin `beta` once (plus a path outside the plugins root) resolve to a
duplicate-free plugin list. -/
theorem resolveChangedPlugins_nodup_witness :
    (resolveChangedPlugins ["plugins/alpha/commands/go.md".toList,
      "plugins/beta/x.json".toList, "plugins/alpha/readme.md".toList,
      "README.md".toList]).Nodup :=
  resolveChangedPlugins_nodup _ (by decide) (by decide)
